import Mathlib

/-!
Shallow embedding of `merlion/utils/conj_priors.py` (online Bayesian conjugate
priors) and proofs about it.

Conventions of the embedding:
* Python/numpy floating-point numbers are modelled by `ℚ` (exact arithmetic;
  "numerically equal within floating tolerance" is read as exact equality of
  the rational ideals of the float computations).
* Only the numpy-array input path of `ConjPrior.process_time_series` is
  modelled; the `TimeSeries` branch belongs to an external collaborator
  (`merlion.utils.TimeSeries`) and no claim depends on it.
* Division by zero in `ℚ` yields `0` where numpy would produce `inf`/`nan`;
  every theorem below that divides puts itself in the regime where the
  divisor is nonzero, matching the defined behaviour of the source.
* Real-valued special functions used only inside density evaluation
  (`log`, `loggamma`, `sqrt`, `slogdet`) are not given numeric values;
  posterior results instead carry the exact distribution parameters the code
  passes to `scipy.stats`, tagged by which evaluation was requested.  Every
  claim about densities below is settled on the Bernoulli case, whose pmf is
  rational and is modelled exactly.
-/

set_option linter.unusedVariables false
set_option linter.unusedTactic false

namespace Merlion

/-- Errors the Python code can raise on the paths modelled here:
the dimension-check `assert` in `ConjPrior.process_time_series`
(the spec's "DimensionMismatch"), and `ValueError` with a message
(raised by the two regression `posterior` methods). -/
inductive PyError where
  | dimensionMismatch
  | valueError (msg : String)
deriving DecidableEq, Repr

/-- A numpy-convertible numeric input, as accepted by
`ConjPrior.process_time_series`: a bare scalar (`ndim = 0`), a flat sequence
(`ndim = 1`), or a 2-D batch (rows = observations, cols = dimensions). -/
inductive NpInput where
  | scalar (q : ℚ)
  | vec (xs : List ℚ)
  | mat (rows : List (List ℚ))
deriving DecidableEq, Repr

/-- The reshape performed by `process_time_series`:
`x.reshape((1, 1) if x.ndim < 1 else (len(x), -1))`. -/
def NpInput.asMatrix : NpInput → List (List ℚ)
  | .scalar q => [[q]]
  | .vec xs => xs.map (fun q => [q])
  | .mat rows => rows

/-- Column count (`x.shape[-1]`) of the reshaped input.  2-D inputs are
assumed rectangular (numpy rejects ragged arrays), so the first row's
length is the shape. -/
def NpInput.ncols : NpInput → ℕ
  | .scalar _ => 1
  | .vec _ => 1
  | .mat rows => (rows.headD []).length

/-- The value `1 if x.ndim < 1 else len(x)` assigned to `self.dt` when the
time anchor is initialized from a numpy input. -/
def NpInput.dtVal : NpInput → ℚ
  | .scalar _ => 1
  | .vec xs => (xs.length : ℚ)
  | .mat rows => (rows.length : ℚ)

/-- The fields set by `ConjPrior.__init__`: observation count `n`,
observation dimensionality `dim` (`None` until fixed), and the time anchor
`t0`/`dt` (`None` until the first observation arrives). -/
structure Common where
  n : ℕ
  dim : Option ℕ
  t0 : Option ℚ
  dt : Option ℚ
deriving DecidableEq, Repr

/-- Fresh state produced by `ConjPrior.__init__`. -/
def Common.init : Common := ⟨0, none, none, none⟩

/-- Fresh state produced by `ScalarConjPrior.__init__`, which additionally
sets `self.dim = 1` at construction time. -/
def Common.initScalar : Common := ⟨0, some 1, none, none⟩

/-- The anchor-initialization block of `process_time_series`:
`if self.t0 is None or self.dt is None: self.t0 = 0; self.dt = ...`
(numpy branch). -/
def Common.anchored (c : Common) (x : NpInput) : Common :=
  if c.t0 = none ∨ c.dt = none then { c with t0 := some 0, dt := some x.dtVal }
  else c

/-- `ConjPrior.process_time_series` on a (non-`None`) numpy input.
Returns the result of the call (normalized times and the reshaped
observation matrix, or the failed dimension `assert`) **and** the state of
the common fields after the call: the Python method mutates `self.t0` and
`self.dt` before performing the dimension check, so a failing call can
still have anchored the time origin. -/
def processTS (c : Common) (x : NpInput) :
    Except PyError (List ℚ × List (List ℚ)) × Common :=
  let c1 := c.anchored x
  let X := x.asMatrix
  let t := (List.range X.length).map
    (fun i => (((c1.n : ℚ) + (i : ℚ)) - c1.t0.getD 0) / c1.dt.getD 1)
  match c1.dim with
  | none => (.ok (t, X), { c1 with dim := some x.ncols })
  | some d =>
      if x.ncols = d then (.ok (t, X), c1)
      else (.error .dimensionMismatch, c1)

/-- `ScalarConjPrior.process_time_series`: the base preprocessing followed
by `x.flatten()` on success. -/
def processTSScalar (c : Common) (x : NpInput) :
    Except PyError (List ℚ × List ℚ) × Common :=
  match processTS c x with
  | (.ok (t, X), c') => (.ok (t, X.flatten), c')
  | (.error e, c') => (.error e, c')

end Merlion

namespace Merlion

/-- State of `BetaBernoulli`: the common fields plus the Beta shape pair. -/
structure BetaBernoulli where
  com : Common
  alpha : ℚ
  beta : ℚ
deriving DecidableEq, Repr

/-- `BetaBernoulli()` with no seed sample: `alpha = beta = 1`. -/
def BetaBernoulli.init : BetaBernoulli := ⟨Common.initScalar, 1, 1⟩

/-- `BetaBernoulli.update`: `self.n += len(x)`, `self.alpha += x.sum()`,
`self.beta += (1 - x).sum()`.  The pair returned is (call result, state
after the call). -/
def BetaBernoulli.update (m : BetaBernoulli) (x : NpInput) :
    Except PyError Unit × BetaBernoulli :=
  match processTSScalar m.com x with
  | (.error e, c') => (.error e, { m with com := c' })
  | (.ok (_t, xs), c') =>
      (.ok (),
       { com := { c' with n := c'.n + xs.length },
         alpha := m.alpha + xs.sum,
         beta := m.beta + (xs.map (fun v => 1 - v)).sum })

/-- `scipy.stats.bernoulli(p).pmf(v)`: `p` at `1`, `1 - p` at `0`,
`0` elsewhere. -/
def bernoulliPmf (p v : ℚ) : ℚ := if v = 1 then p else if v = 0 then 1 - p else 0

/-- Result of `BetaBernoulli.posterior` / `_process_return`: the
`scipy.stats.bernoulli` random variable itself (identified by its success
probability), the pmf evaluated at the flattened query, or — for
`log = True` — the pmf values whose logarithm the code returns (the log
itself is irrational and is left symbolic). -/
inductive BBPost where
  | rv (p : ℚ)
  | pmfVals (vals : List ℚ)
  | logpmfVals (vals : List ℚ)
deriving DecidableEq, Repr

/-- `BetaBernoulli.posterior`: preprocesses `x` (mutating the time anchor
of an unanchored model), builds `bernoulli(alpha / (alpha + beta))` and
dispatches on `x is None` / `return_rv` / `log` as `_process_return` does. -/
def BetaBernoulli.posterior (m : BetaBernoulli) (x : Option NpInput)
    (return_rv log : Bool) : Except PyError BBPost × BetaBernoulli :=
  match x with
  | none => (.ok (.rv (m.alpha / (m.alpha + m.beta))), m)
  | some x0 =>
      match processTSScalar m.com x0 with
      | (.error e, c') => (.error e, { m with com := c' })
      | (.ok (_t, xs), c') =>
          let p := m.alpha / (m.alpha + m.beta)
          let res := if return_rv then BBPost.rv p
                     else if log then BBPost.logpmfVals (xs.map (bernoulliPmf p))
                     else BBPost.pmfVals (xs.map (bernoulliPmf p))
          (.ok res, { m with com := c' })

end Merlion

namespace Merlion

/-- State of `NormInvGamma`: common fields plus `(mu_0, alpha, beta)`. -/
structure NormInvGamma where
  com : Common
  mu_0 : ℚ
  alpha : ℚ
  beta : ℚ
deriving DecidableEq, Repr

/-- `NormInvGamma()` with no seed sample: `mu_0 = alpha = beta = 0`. -/
def NormInvGamma.init : NormInvGamma := ⟨Common.initScalar, 0, 0, 0⟩

/-- `NormInvGamma.update`, line for line: with `n0 = self.n` and
`n = len(x)` after flattening, `alpha += n/2`; `n = n0 + n`;
`xbar = mean(x)`; `sample_comp = Σ (x - xbar)²`;
`prior_comp = n0·n/(n0+n)·(mu_0 - xbar)²`;
`beta += sample_comp/2 + prior_comp/2`;
`mu_0 = mu_0·n0/(n0+n) + xbar·n/(n0+n)`. -/
def NormInvGamma.update (m : NormInvGamma) (x : NpInput) :
    Except PyError Unit × NormInvGamma :=
  match processTSScalar m.com x with
  | (.error e, c') => (.error e, { m with com := c' })
  | (.ok (_t, xs), c') =>
      let n0 : ℚ := (c'.n : ℚ)
      let n : ℚ := (xs.length : ℚ)
      let xbar := xs.sum / n
      let sample_comp := (xs.map (fun v => (v - xbar) ^ 2)).sum
      let prior_comp := n0 * n / (n0 + n) * (m.mu_0 - xbar) ^ 2
      (.ok (),
       { com := { c' with n := c'.n + xs.length },
         alpha := m.alpha + n / 2,
         beta := m.beta + sample_comp / 2 + prior_comp / 2,
         mu_0 := m.mu_0 * n0 / (n0 + n) + xbar * n / (n0 + n) })

/-- Result of `NormInvGamma.posterior` and its auxiliary posteriors: the
`scipy.stats` `student_t`/`invgamma` object identified by the exact
parameters the code passes (for the Student-t the *squared* scale is kept,
since the code takes a square root that is irrational in general), or the
same parameters together with the query the density is evaluated at.
The real-valued density itself is left symbolic. -/
inductive ScalarRvQuery where
  | studentT (loc scale2 df : ℚ)
  | studentTAt (loc scale2 df : ℚ) (query : List ℚ) (log : Bool)
  | invGamma (a scale : ℚ)
  | invGammaAt (a scale : ℚ) (query : List ℚ) (log : Bool)
deriving DecidableEq, Repr

/-- `NormInvGamma.posterior`: preprocesses `x` (mutating the time anchor of
an unanchored model) and builds `student_t(loc=mu_0,
scale=sqrt(beta(n+1)/(alpha n)), df=2 alpha)`. -/
def NormInvGamma.posterior (m : NormInvGamma) (x : Option NpInput)
    (return_rv log : Bool) : Except PyError ScalarRvQuery × NormInvGamma :=
  let scale2 := m.beta * ((m.com.n : ℚ) + 1) / (m.alpha * (m.com.n : ℚ))
  match x with
  | none => (.ok (.studentT m.mu_0 scale2 (2 * m.alpha)), m)
  | some x0 =>
      match processTSScalar m.com x0 with
      | (.error e, c') => (.error e, { m with com := c' })
      | (.ok (_t, xs), c') =>
          let res := if return_rv then ScalarRvQuery.studentT m.mu_0 scale2 (2 * m.alpha)
                     else ScalarRvQuery.studentTAt m.mu_0 scale2 (2 * m.alpha) xs log
          (.ok res, { m with com := c' })

end Merlion

namespace Merlion

/-- `A[i][j]` with numpy-style total indexing (out-of-range reads `0`;
all reachable uses stay in range). -/
def matEntry (A : List (List ℚ)) (i j : ℕ) : ℚ := (A.getD i []).getD j 0

/-- `np.mean(X, axis=0)` at column `j`. -/
def colMean (X : List (List ℚ)) (j : ℕ) : ℚ :=
  (X.map (fun r => r.getD j 0)).sum / (X.length : ℚ)

/-- Entry `(i, j)` of `np.cov(X, rowvar=False)`: the *unbiased* sample
covariance, dividing by `len(X) - 1` (numpy's default `ddof`). -/
def npCovEntry (X : List (List ℚ)) (i j : ℕ) : ℚ :=
  (X.map (fun r => (r.getD i 0 - colMean X i) * (r.getD j 0 - colMean X j))).sum
    / ((X.length : ℚ) - 1)

/-- `np.cov(X, rowvar=False)` as a `d × d` matrix. -/
def npCov (X : List (List ℚ)) (d : ℕ) : List (List ℚ) :=
  (List.range d).map (fun i => (List.range d).map (fun j => npCovEntry X i j))

/-- Elementwise `c * A` on a `d × d` matrix. -/
def matScale (c : ℚ) (A : List (List ℚ)) (d : ℕ) : List (List ℚ) :=
  (List.range d).map (fun i => (List.range d).map (fun j => c * matEntry A i j))

/-- Elementwise `A + B` on `d × d` matrices. -/
def matAdd (A B : List (List ℚ)) (d : ℕ) : List (List ℚ) :=
  (List.range d).map (fun i => (List.range d).map (fun j => matEntry A i j + matEntry B i j))

/-- numpy broadcasting of `A + s` for a scalar `s`: `s` is added to every
entry of the `d × d` matrix. -/
def matAddConst (A : List (List ℚ)) (s : ℚ) (d : ℕ) : List (List ℚ) :=
  (List.range d).map (fun i => (List.range d).map (fun j => matEntry A i j + s))

/-- State of `MVNormInvWishart`: common fields plus `(nu, mu_0, Lambda)`;
`mu_0` and `Lambda` are `None` until the first batch. -/
structure MVNormInvWishart where
  com : Common
  nu : ℕ
  mu_0 : Option (List ℚ)
  Lambda : Option (List (List ℚ))
deriving DecidableEq, Repr

/-- `MVNormInvWishart()` with no seed sample. -/
def MVNormInvWishart.init : MVNormInvWishart := ⟨Common.init, 0, none, none⟩

/-- `MVNormInvWishart.update`, line for line.  Note two facts about the
source that the embedding preserves exactly: `sample_cov` is numpy's
*unbiased* covariance (denominator `n - 1`), and for the second and later
batches `delta.T @ delta` on the 1-D array `delta` is the **inner** product
(a scalar), which numpy broadcasting then adds to every entry of `Lambda`
(the class docstring instead shows the outer product
`(mu_0 - x̄)(mu_0 - x̄)ᵀ`). -/
def MVNormInvWishart.update (m : MVNormInvWishart) (x : NpInput) :
    Except PyError Unit × MVNormInvWishart :=
  match processTS m.com x with
  | (.error e, c') => (.error e, { m with com := c' })
  | (.ok (_t, X), c') =>
      let n0 : ℕ := c'.n
      let n : ℕ := X.length
      let d : ℕ := x.ncols
      let nu' := m.nu + n
      let sample_mean := (List.range d).map (colMean X)
      let sample_cov := npCov X d
      if c'.n = 0 then
        (.ok (),
         { com := { c' with n := n }, nu := nu',
           mu_0 := some sample_mean,
           Lambda := some (matScale (n : ℚ) sample_cov d) })
      else
        let mu0 := m.mu_0.getD []
        let delta := (List.range d).map (fun j => sample_mean.getD j 0 - mu0.getD j 0)
        let sample_comp := matScale (n : ℚ) sample_cov d
        let prior_comp : ℚ :=
          (delta.map (fun v => v * v)).sum * (n : ℚ) * (n0 : ℚ) / ((n : ℚ) + (n0 : ℚ))
        (.ok (),
         { com := { c' with n := n0 + n }, nu := nu',
           mu_0 := some ((List.range d).map (fun j =>
             mu0.getD j 0 * (n0 : ℚ) / ((n0 : ℚ) + (n : ℚ))
               + sample_mean.getD j 0 * (n : ℚ) / ((n0 : ℚ) + (n : ℚ)))),
           Lambda := some (matAddConst (matAdd (m.Lambda.getD []) sample_comp d)
             prior_comp d) })

/-- Result of `MVNormInvWishart.posterior`: the `scipy.stats`
`multivariate_t` object identified by the parameters the code passes
(location, shape matrix, degrees of freedom), or those parameters plus the
query matrix.  The density value itself is left symbolic. -/
inductive MVTQuery where
  | rv (loc : List ℚ) (shape : List (List ℚ)) (df : ℤ)
  | evalAt (loc : List ℚ) (shape : List (List ℚ)) (df : ℤ)
      (query : List (List ℚ)) (log : Bool)
deriving DecidableEq, Repr

/-- `MVNormInvWishart.posterior`: preprocesses `x` (mutating the time
anchor — and, on a model with unfixed `dim`, adopting the query's column
count), then builds
`mvt(shape=Lambda (n+1)/(n dof), loc=mu_0, df=dof)` with
`dof = max(nu - dim + 1, 1)`.  On a model whose `mu_0`/`Lambda` are still
`None` the Python code raises a `TypeError` *after* these state mutations;
the embedding reads the fields through `getD` instead, which no claim
depends on. -/
def MVNormInvWishart.posterior (m : MVNormInvWishart) (x : Option NpInput)
    (return_rv log : Bool) : Except PyError MVTQuery × MVNormInvWishart :=
  match x with
  | none =>
      let dim := m.com.dim.getD 0
      let dof : ℤ := max ((m.nu : ℤ) - (dim : ℤ) + 1) 1
      let shape := matScale (((m.com.n : ℚ) + 1) / ((m.com.n : ℚ) * (dof : ℚ)))
        (m.Lambda.getD []) dim
      (.ok (.rv (m.mu_0.getD []) shape dof), m)
  | some x0 =>
      match processTS m.com x0 with
      | (.error e, c') => (.error e, { m with com := c' })
      | (.ok (_t, X), c') =>
          let dim := c'.dim.getD 0
          let dof : ℤ := max ((m.nu : ℤ) - (dim : ℤ) + 1) 1
          let shape := matScale (((c'.n : ℚ) + 1) / ((c'.n : ℚ) * (dof : ℚ)))
            (m.Lambda.getD []) dim
          let res := if return_rv then MVTQuery.rv (m.mu_0.getD []) shape dof
                     else MVTQuery.evalAt (m.mu_0.getD []) shape dof X log
          (.ok res, { m with com := c' })

end Merlion

namespace Merlion

/-- The `ValueError` message raised by both `BayesianLinReg.posterior` and
`BayesianMVLinReg.posterior` when `x is None or return_rv`. -/
def unsupportedMsg : String :=
  "Bayesian linear regression doesn't have a scipy.stats random variable posterior. Please specify a non-``None`` value of ``x`` and set ``return_rv = False``."

/-- State of `BayesianLinReg`: common fields plus
`(w_0, Lambda_0, alpha, beta)`. -/
structure BayesianLinReg where
  com : Common
  w_0 : List ℚ
  Lambda_0 : List (List ℚ)
  alpha : ℚ
  beta : ℚ
deriving DecidableEq, Repr

/-- `BayesianLinReg()` with no seed sample: `w_0 = zeros(2)`,
`Lambda_0 = zeros((2, 2))`, `alpha = beta = 0`. -/
def BayesianLinReg.init : BayesianLinReg :=
  ⟨Common.init, [0, 0], [[0, 0], [0, 0]], 0, 0⟩

/-- `BayesianLinReg.posterior` up to its first statement past the guard.
The guard `if x is None or return_rv: raise ValueError(...)` runs before
anything else, so on that path the state is returned untouched.  Otherwise
the call runs `process_time_series(x)` on `self` (anchoring an unanchored
model) and then computes the marginal-likelihood ratio on a deep copy; the
copy never aliases `self`, so the only state effect on `self` is the
preprocessing.  The returned log-density involves `slogdet`, `log` and
`loggamma` and is left symbolic: the `ok` payload is the preprocessed
`(t, x)` pair the computation starts from. -/
def BayesianLinReg.posterior (m : BayesianLinReg) (x : Option NpInput)
    (return_rv log : Bool) :
    Except PyError (List ℚ × List (List ℚ)) × BayesianLinReg :=
  match x, return_rv with
  | none, _ => (.error (.valueError unsupportedMsg), m)
  | some _, true => (.error (.valueError unsupportedMsg), m)
  | some x0, false =>
      match processTS m.com x0 with
      | (.error e, c') => (.error e, { m with com := c' })
      | (.ok (t, X), c') => (.ok (t, X), { m with com := c' })

/-- State of `BayesianMVLinReg`: common fields plus
`(nu, w_0, Lambda_0, V_0)`; `w_0` and `V_0` are `None` until the first
batch fixes the dimension. -/
structure BayesianMVLinReg where
  com : Common
  nu : ℕ
  w_0 : Option (List (List ℚ))
  Lambda_0 : List (List ℚ)
  V_0 : Option (List (List ℚ))
deriving DecidableEq, Repr

/-- `BayesianMVLinReg()` with no seed sample. -/
def BayesianMVLinReg.init : BayesianMVLinReg :=
  ⟨Common.init, 0, none, [[0, 0], [0, 0]], none⟩

/-- `BayesianMVLinReg.posterior` up to its first statement past the guard;
exactly as for `BayesianLinReg.posterior` (same guard, same message), with
the density computation left symbolic. -/
def BayesianMVLinReg.posterior (m : BayesianMVLinReg) (x : Option NpInput)
    (return_rv log : Bool) :
    Except PyError (List ℚ × List (List ℚ)) × BayesianMVLinReg :=
  match x, return_rv with
  | none, _ => (.error (.valueError unsupportedMsg), m)
  | some _, true => (.error (.valueError unsupportedMsg), m)
  | some x0, false =>
      match processTS m.com x0 with
      | (.error e, c') => (.error e, { m with com := c' })
      | (.ok (t, X), c') => (.ok (t, X), { m with com := c' })

end Merlion

namespace Merlion

/-- A Python runtime value as it appears in a model's `__dict__`:
`None`, an `int`, a float (modelled by `ℚ`), a (possibly nested) plain
`list`, or a numpy `ndarray` wrapping its element tree.  `pyarr v` stands
for `np.asarray` applied to content `v`; numpy arrays obtained from numeric
data never contain further arrays. -/
inductive PyVal where
  | pynone
  | pyint (z : ℤ)
  | pyrat (q : ℚ)
  | pylist (xs : List PyVal)
  | pyarr (v : PyVal)

/-- A Python instance `__dict__`: attribute names with their values, in
insertion order. -/
abbrev PyDict := List (String × PyVal)

/-- `v.tolist() if hasattr(v, "tolist") else copy.deepcopy(v)`:
numpy arrays have `tolist`, which strips the array wrapper and yields the
plain nested-list content; on everything else `deepcopy` is the identity
for values. -/
def pyTolist : PyVal → PyVal
  | .pyarr v => v
  | v => v

/-- `np.asarray(v)`: an array is returned unchanged, everything else is
wrapped into an array with the same content. -/
def npAsarray : PyVal → PyVal
  | .pyarr v => .pyarr v
  | v => .pyarr v

/-- `v` is not an array directly wrapping another array (no reachable
model state contains such a value). -/
def notNestedArr : PyVal → Bool
  | .pyarr (.pyarr _) => false
  | _ => true

/-- `ConjPrior.to_dict`: every field of `__dict__`, with arrays converted
by `tolist` and the rest deep-copied. -/
def ConjPrior.to_dict (d : PyDict) : PyDict :=
  d.map (fun kv => (kv.1, pyTolist kv.2))

/-- `ConjPrior.from_dict`: constructs a fresh instance (whose `__dict__` is
`fresh`) and runs `setattr(ret, k, np.asarray(v))` for every `(k, v)` of the
state dict — every assigned field goes through `np.asarray`, not verbatim.
Keys absent from the state dict keep the fresh instance's value.  (Keys of
the state dict that are not attributes of the fresh instance never arise in
a round trip of the same class and are not modelled.) -/
def ConjPrior.from_dict (fresh d : PyDict) : PyDict :=
  fresh.map (fun kv =>
    match d.lookup kv.1 with
    | some w => (kv.1, npAsarray w)
    | none => kv)

/-- `PyVal` image of an `Option ℕ` field (`None` or a Python `int`). -/
def pyOptNat : Option ℕ → PyVal
  | none => .pynone
  | some k => .pyint (k : ℤ)

/-- `PyVal` image of an `Option ℚ` field. -/
def pyOptRat : Option ℚ → PyVal
  | none => .pynone
  | some q => .pyrat q

/-- The `__dict__` of a `BetaBernoulli` instance, in the attribute insertion
order of `__init__`: `n`, `dim`, `t0`, `dt`, `alpha`, `beta`.  On a fresh
instance `n`, `dim`, `alpha`, `beta` are Python `int`s; the numeric fields
are rendered through `ℚ` once updates have run. -/
def BetaBernoulli.toPyDict (m : BetaBernoulli) : PyDict :=
  [("n", .pyint (m.com.n : ℤ)), ("dim", pyOptNat m.com.dim),
   ("t0", pyOptRat m.com.t0), ("dt", pyOptRat m.com.dt),
   ("alpha", .pyrat m.alpha), ("beta", .pyrat m.beta)]

end Merlion


namespace Merlion

/-- Repeated `update` calls with a sequence of flat numeric batches, as a
caller feeding progressively arriving data would issue them (each call's
return value is discarded; the state threads through). -/
def BetaBernoulli.updateMany (m : BetaBernoulli) (bs : List (List ℚ)) :
    BetaBernoulli :=
  bs.foldl (fun m b => (BetaBernoulli.update m (.vec b)).2) m

/-- The `Lambda` update step of `MVNormInvWishart` **as the spec's claim
states it** (for comparison with the source's computation):
`Lambda + sample_covariance·n + (n·n0/(n+n0)) · (delta deltaᵀ)`, with the
outer product `delta deltaᵀ` a `d × d` matrix of entries
`delta_i · delta_j`. -/
def specLambdaStep (Lambda : List (List ℚ)) (mu0 : List ℚ)
    (X : List (List ℚ)) (n0 d : ℕ) : List (List ℚ) :=
  let n : ℚ := (X.length : ℚ)
  let delta := (List.range d).map (fun j => colMean X j - mu0.getD j 0)
  (List.range d).map (fun i => (List.range d).map (fun j =>
    matEntry Lambda i j + npCovEntry X i j * n
      + n * (n0 : ℚ) / (n + (n0 : ℚ)) * (delta.getD i 0 * delta.getD j 0)))

end Merlion

namespace Merlion

/-- Flattening the single-column reshape of a flat sequence recovers the
sequence. -/
theorem flatten_map_singleton (xs : List ℚ) :
    (xs.map (fun q => [q])).flatten = xs := by
  induction xs with
  | nil => rfl
  | cons a l ih => simp [ih]

/-- `processTSScalar` on a flat numeric batch, for a state whose `dim` is
fixed to `1` (as `ScalarConjPrior.__init__` guarantees): the call succeeds,
returns the batch itself as the flattened observation array, and its only
state effect is anchoring the time origin. -/
theorem processTSScalar_vec (c : Common) (xs : List ℚ) (hdim : c.dim = some 1) :
    processTSScalar c (.vec xs) =
      (.ok (((List.range xs.length).map
          (fun i => ((((c.anchored (.vec xs)).n : ℚ) + (i : ℚ))
            - (c.anchored (.vec xs)).t0.getD 0) / (c.anchored (.vec xs)).dt.getD 1)),
        xs), c.anchored (.vec xs)) := by
  have hdim' : (c.anchored (.vec xs)).dim = some 1 := by
    unfold Common.anchored
    split <;> simpa using hdim
  unfold processTSScalar processTS
  simp [hdim', NpInput.ncols, NpInput.asMatrix, flatten_map_singleton]

/-- `processTSScalar` on a bare scalar input, for a state with `dim = 1`:
the observation array is the singleton batch and the only state effect is
anchoring. -/
theorem processTSScalar_scalar (c : Common) (q : ℚ) (hdim : c.dim = some 1) :
    processTSScalar c (.scalar q) =
      (.ok ([(((c.anchored (.scalar q)).n : ℚ)
            - (c.anchored (.scalar q)).t0.getD 0) / (c.anchored (.scalar q)).dt.getD 1],
        [q]), c.anchored (.scalar q)) := by
  have hdim' : (c.anchored (.scalar q)).dim = some 1 := by
    unfold Common.anchored
    split <;> simpa using hdim
  unfold processTSScalar processTS
  simp [hdim', NpInput.ncols, NpInput.asMatrix, List.range_succ]

/-- `Common.anchored` does not change `n` or `dim`. -/
theorem anchored_n_dim (c : Common) (x : NpInput) :
    (c.anchored x).n = c.n ∧ (c.anchored x).dim = c.dim := by
  unfold Common.anchored
  split <;> simp

/-- On an already-anchored state, `Common.anchored` is the identity. -/
theorem anchored_of_anchored (c : Common) (x : NpInput)
    (h0 : c.t0 ≠ none) (h1 : c.dt ≠ none) : c.anchored x = c := by
  unfold Common.anchored
  simp [h0, h1]

/-- Sum of `(1 - v)` over a batch equals its length minus its sum. -/
theorem sum_one_sub (xs : List ℚ) :
    (xs.map (fun v => 1 - v)).sum = (xs.length : ℚ) - xs.sum := by
  induction xs with
  | nil => simp
  | cons a l ih => simp [ih]; ring

end Merlion

namespace Merlion

/-- Closed form of `BetaBernoulli.update` on a flat numeric batch when
`dim = 1` (always true for this scalar variant). -/
theorem BetaBernoulli.update_vec_bb (m : BetaBernoulli) (xs : List ℚ)
    (hdim : m.com.dim = some 1) :
    m.update (.vec xs) =
      (.ok (),
       { com := { m.com.anchored (.vec xs) with
                    n := (m.com.anchored (.vec xs)).n + xs.length },
         alpha := m.alpha + xs.sum,
         beta := m.beta + (xs.map (fun v => 1 - v)).sum }) := by
  unfold BetaBernoulli.update
  rw [processTSScalar_vec m.com xs hdim]

/-- Sum of a batch whose entries are all `0` or `1` equals the number of
`1`s; the complementary sum counts the `0`s. -/
theorem sum_eq_count_of_01 (xs : List ℚ) (h : ∀ v ∈ xs, v = 0 ∨ v = 1) :
    xs.sum = (xs.count 1 : ℚ) ∧
      (xs.map (fun v => 1 - v)).sum = (xs.count 0 : ℚ) := by
  induction xs with
  | nil => simp
  | cons a l ih =>
      have ha := h a (by simp)
      have ih' := ih (fun v hv => h v (by simp [hv]))
      rcases ha with h0 | h1 <;> subst_vars <;> constructor <;>
        simp [List.count_cons, ih'.1, ih'.2] <;> push_cast <;> ring

end Merlion

namespace Merlion

/-- `BetaBernoulli.posterior` on a bare scalar query with
`return_rv = log = False`, for a state with `dim = 1`: it returns the
Bernoulli pmf at the query and its only state effect is anchoring. -/
theorem BetaBernoulli.posterior_pdf_scalar (m : BetaBernoulli) (q : ℚ)
    (hdim : m.com.dim = some 1) :
    m.posterior (some (.scalar q)) false false
      = (.ok (.pmfVals [bernoulliPmf (m.alpha / (m.alpha + m.beta)) q]),
         { m with com := m.com.anchored (.scalar q) }) := by
  unfold BetaBernoulli.posterior
  simp [processTSScalar_scalar m.com q hdim]

/-- C5: for a `BetaBernoulli` model, updating with a batch of 0/1
observations containing `k` ones and `m` zeros adds exactly `k` to `alpha`
and `m` to `beta`; a fresh model updated with `[1,1,0,1,0,0]` has
`alpha = 4` and `beta = 4`, and `posterior(1, log=False)` then returns
`alpha/(alpha+beta) = 1/2`. -/
theorem claim_C5_betabernoulli_update (m : BetaBernoulli) (xs : List ℚ)
    (hdim : m.com.dim = some 1) (h01 : ∀ v ∈ xs, v = 0 ∨ v = 1) :
    ((m.update (.vec xs)).2.alpha = m.alpha + (xs.count 1 : ℚ)
      ∧ (m.update (.vec xs)).2.beta = m.beta + (xs.count 0 : ℚ))
    ∧ (BetaBernoulli.init.update (.vec [1, 1, 0, 1, 0, 0])).2.alpha = 4
    ∧ (BetaBernoulli.init.update (.vec [1, 1, 0, 1, 0, 0])).2.beta = 4
    ∧ ((BetaBernoulli.init.update (.vec [1, 1, 0, 1, 0, 0])).2.posterior
          (some (.scalar 1)) false false).1 = .ok (.pmfVals [1/2]) := by
  refine ⟨⟨?_, ?_⟩, ?_, ?_, ?_⟩
  · rw [BetaBernoulli.update_vec_bb m xs hdim, (sum_eq_count_of_01 xs h01).1]
  · rw [BetaBernoulli.update_vec_bb m xs hdim, (sum_eq_count_of_01 xs h01).2]
  · norm_num [BetaBernoulli.update, processTSScalar, processTS, BetaBernoulli.init,
      Common.initScalar, Common.anchored, NpInput.asMatrix, NpInput.ncols, NpInput.dtVal]
  · norm_num [BetaBernoulli.update, processTSScalar, processTS, BetaBernoulli.init,
      Common.initScalar, Common.anchored, NpInput.asMatrix, NpInput.ncols, NpInput.dtVal]
  · have h4 : (BetaBernoulli.init.update (.vec [1, 1, 0, 1, 0, 0])).2
        = ⟨⟨6, some 1, some 0, some 6⟩, 4, 4⟩ := by
      norm_num [BetaBernoulli.update, processTSScalar, processTS, BetaBernoulli.init,
        Common.initScalar, Common.anchored, NpInput.asMatrix, NpInput.ncols, NpInput.dtVal]
    rw [h4]
    rw [BetaBernoulli.posterior_pdf_scalar _ 1 rfl]
    norm_num [bernoulliPmf]

/-- Witness for C5 at a concrete batch with hypotheses discharged. -/
theorem claim_C5_witness :
    (BetaBernoulli.init.update (.vec [1, 0, 1])).2.alpha
        = BetaBernoulli.init.alpha + (([1, 0, 1] : List ℚ).count 1 : ℚ)
      ∧ (BetaBernoulli.init.update (.vec [1, 0, 1])).2.beta
        = BetaBernoulli.init.beta + (([1, 0, 1] : List ℚ).count 0 : ℚ) :=
  (claim_C5_betabernoulli_update BetaBernoulli.init [1, 0, 1] (by decide)
    (by intro v hv; fin_cases hv <;> norm_num)).1

end Merlion

namespace Merlion

/-- Invariant driving C10: for any `BetaBernoulli` state with `dim = 1`,
one `update` with a flat numeric batch adds the batch length to both
`alpha + beta` and `n`, and keeps `dim` fixed. -/
theorem BetaBernoulli.update_invariant (m : BetaBernoulli) (b : List ℚ)
    (hdim : m.com.dim = some 1) :
    (m.update (.vec b)).2.alpha + (m.update (.vec b)).2.beta
        = m.alpha + m.beta + (b.length : ℚ)
      ∧ (m.update (.vec b)).2.com.n = m.com.n + b.length
      ∧ (m.update (.vec b)).2.com.dim = some 1 := by
  rw [BetaBernoulli.update_vec_bb m b hdim]
  refine ⟨?_, ?_, ?_⟩
  · simp [sum_one_sub]
    ring
  · simp [(anchored_n_dim m.com (.vec b)).1]
  · simp [(anchored_n_dim m.com (.vec b)).2, hdim]

/-- C10: for a `BetaBernoulli` model constructed without a sample, after
any sequence of `update` calls with flat numeric batches (values need not
be 0/1 — `update` does not reject other values), the identity
`alpha + beta = 2 + n` holds. -/
theorem claim_C10_beta_bernoulli_invariant (bs : List (List ℚ)) :
    (BetaBernoulli.init.updateMany bs).alpha + (BetaBernoulli.init.updateMany bs).beta
      = 2 + ((BetaBernoulli.init.updateMany bs).com.n : ℚ) := by
  suffices h : ∀ (m : BetaBernoulli), m.com.dim = some 1 →
      m.alpha + m.beta = 2 + (m.com.n : ℚ) →
      (m.updateMany bs).alpha + (m.updateMany bs).beta
        = 2 + ((m.updateMany bs).com.n : ℚ) by
    exact h BetaBernoulli.init rfl (by norm_num [BetaBernoulli.init, Common.initScalar])
  induction bs with
  | nil => intro m hdim hinv; simpa [BetaBernoulli.updateMany] using hinv
  | cons b rest ih =>
      intro m hdim hinv
      have hstep := BetaBernoulli.update_invariant m b hdim
      have : BetaBernoulli.updateMany m (b :: rest)
          = BetaBernoulli.updateMany (m.update (.vec b)).2 rest := by
        simp [BetaBernoulli.updateMany]
      rw [this]
      refine ih _ hstep.2.2 ?_
      rw [hstep.1, hstep.2.1, hinv]
      push_cast
      ring

end Merlion

namespace Merlion

/-- Closed form of `NormInvGamma.update` on a flat numeric batch when
`dim = 1` (always true for this scalar variant). -/
theorem NormInvGamma.update_vec_nig (m : NormInvGamma) (xs : List ℚ)
    (hdim : m.com.dim = some 1) :
    m.update (.vec xs) =
      (.ok (),
       { com := { m.com.anchored (.vec xs) with
                    n := (m.com.anchored (.vec xs)).n + xs.length },
         alpha := m.alpha + (xs.length : ℚ) / 2,
         beta := m.beta
           + (xs.map (fun v => (v - xs.sum / (xs.length : ℚ)) ^ 2)).sum / 2
           + (m.com.n : ℚ) * (xs.length : ℚ) / ((m.com.n : ℚ) + (xs.length : ℚ))
               * (m.mu_0 - xs.sum / (xs.length : ℚ)) ^ 2 / 2,
         mu_0 := m.mu_0 * (m.com.n : ℚ) / ((m.com.n : ℚ) + (xs.length : ℚ))
           + xs.sum / (xs.length : ℚ) * (xs.length : ℚ)
               / ((m.com.n : ℚ) + (xs.length : ℚ)) }) := by
  unfold NormInvGamma.update
  rw [processTSScalar_vec m.com xs hdim]
  simp [(anchored_n_dim m.com (.vec xs)).1]

/-- C6: for a `NormInvGamma` model with prior count `n0` and a batch of
size `n` with mean `x̄`, `update` sets `alpha` to `alpha + n/2`, `beta` to
`beta + ½·Σ(xᵢ−x̄)² + ½·(n0·n/(n0+n))·(mu_0−x̄)²`, `mu_0` to
`(n0·mu_0 + n·x̄)/(n0+n)`, and `n` to `n0+n`; updating an uninitialized
model (`n0 = 0`) with one batch sets `mu_0` to exactly the batch mean and
`n` to the batch size. -/
theorem claim_C6_norminvgamma_update (m : NormInvGamma) (xs : List ℚ)
    (hdim : m.com.dim = some 1) (hne : xs ≠ []) :
    (m.update (.vec xs)).2.alpha = m.alpha + (xs.length : ℚ) / 2
    ∧ (m.update (.vec xs)).2.beta
        = m.beta
          + (xs.map (fun v => (v - xs.sum / (xs.length : ℚ)) ^ 2)).sum / 2
          + (m.com.n : ℚ) * (xs.length : ℚ) / ((m.com.n : ℚ) + (xs.length : ℚ))
              * (m.mu_0 - xs.sum / (xs.length : ℚ)) ^ 2 / 2
    ∧ (m.update (.vec xs)).2.mu_0
        = ((m.com.n : ℚ) * m.mu_0 + (xs.length : ℚ) * (xs.sum / (xs.length : ℚ)))
            / ((m.com.n : ℚ) + (xs.length : ℚ))
    ∧ (m.update (.vec xs)).2.com.n = m.com.n + xs.length
    ∧ (m.com.n = 0 →
        (m.update (.vec xs)).2.mu_0 = xs.sum / (xs.length : ℚ)
        ∧ (m.update (.vec xs)).2.com.n = xs.length) := by
  have hlen : (xs.length : ℚ) ≠ 0 := by
    exact_mod_cast Nat.cast_ne_zero.mpr (fun h => hne (List.length_eq_zero.mp h))
  have hden : (m.com.n : ℚ) + (xs.length : ℚ) ≠ 0 := by
    have h1 : (0 : ℚ) ≤ (m.com.n : ℚ) := Nat.cast_nonneg _
    have h2 : (0 : ℚ) < (xs.length : ℚ) := by
      rcases (Nat.cast_pos (α := ℚ)).mpr (Nat.pos_of_ne_zero
        (fun h => hne (List.length_eq_zero.mp h))) with h
      exact h
    positivity
  rw [NormInvGamma.update_vec_nig m xs hdim]
  refine ⟨rfl, rfl, ?_, ?_, ?_⟩
  · field_simp
    ring
  · simp [(anchored_n_dim m.com (.vec xs)).1]
  · intro h0
    constructor
    · simp only [h0]
      field_simp
    · simp [(anchored_n_dim m.com (.vec xs)).1, h0]

/-- Witness for C6 at the concrete batch `[1, 3]` on a fresh model. -/
theorem claim_C6_witness :
    (NormInvGamma.init.update (.vec [1, 3])).2.alpha = NormInvGamma.init.alpha + 1
    ∧ (NormInvGamma.init.update (.vec [1, 3])).2.mu_0 = 2
    ∧ (NormInvGamma.init.update (.vec [1, 3])).2.com.n = 2 := by
  have h := claim_C6_norminvgamma_update NormInvGamma.init [1, 3] rfl (by simp)
  refine ⟨?_, ?_, ?_⟩
  · rw [h.1]; norm_num
  · rw [(h.2.2.2.2 rfl).1]; norm_num
  · exact (h.2.2.2.2 rfl).2
end Merlion

namespace Merlion

/-- Expansion of a sum of squared deviations about an arbitrary center. -/
theorem sum_sq_dev (xs : List ℚ) (c : ℚ) :
    (xs.map (fun v => (v - c) ^ 2)).sum
      = (xs.map (fun v => v ^ 2)).sum - 2 * c * xs.sum + (xs.length : ℚ) * c ^ 2 := by
  induction xs with
  | nil => simp
  | cons a l ih =>
      simp [ih]
      push_cast
      ring

/-- The scatter (sum of squared deviations about the mean) in terms of the
raw sums: `Σ(v − s/n)² = Σv² − s²/n`. -/
theorem scatter_eq (xs : List ℚ) (h : (xs.length : ℚ) ≠ 0) :
    (xs.map (fun v => (v - xs.sum / (xs.length : ℚ)) ^ 2)).sum
      = (xs.map (fun v => v ^ 2)).sum - xs.sum ^ 2 / (xs.length : ℚ) := by
  rw [sum_sq_dev]
  field_simp
  ring

end Merlion

namespace Merlion

/-- Counterexample to C1: for `MVNormInvWishart`, updating a fresh model
with `[0,2]` then `[4,6]` leaves `Lambda = [[24]]`, while one update with
the concatenation `[0,2,4,6]` leaves `Lambda = [[80/3]]` — the states are
not numerically equal, because the code scales numpy's *unbiased*
covariance (denominator `n−1`) by `n`, which does not telescope across
batch splits. -/
theorem claim_C1_counterexample :
    ((MVNormInvWishart.init.update (.vec [0, 2])).2.update (.vec [4, 6])).2.Lambda
        = some [[24]]
      ∧ (MVNormInvWishart.init.update (.vec [0, 2, 4, 6])).2.Lambda = some [[80/3]]
      ∧ ((MVNormInvWishart.init.update (.vec [0, 2])).2.update (.vec [4, 6])).2.Lambda
        ≠ (MVNormInvWishart.init.update (.vec [0, 2, 4, 6])).2.Lambda := by
  refine ⟨?_, ?_, ?_⟩
  · norm_num [MVNormInvWishart.update, MVNormInvWishart.init, processTS, Common.init,
      Common.anchored, NpInput.asMatrix, NpInput.ncols, NpInput.dtVal, colMean, npCov,
      npCovEntry, matScale, matAdd, matAddConst, matEntry, List.range_succ]
  · norm_num [MVNormInvWishart.update, MVNormInvWishart.init, processTS, Common.init,
      Common.anchored, NpInput.asMatrix, NpInput.ncols, NpInput.dtVal, colMean, npCov,
      npCovEntry, matScale, matAdd, matAddConst, matEntry, List.range_succ]
  · norm_num [MVNormInvWishart.update, MVNormInvWishart.init, processTS, Common.init,
      Common.anchored, NpInput.asMatrix, NpInput.ncols, NpInput.dtVal, colMean, npCov,
      npCovEntry, matScale, matAdd, matAddConst, matEntry, List.range_succ]

end Merlion

namespace Merlion


/-- C1 (amended): the batch-split law `update(B1); update(B2) =
update(B1+B2)` holds exactly, in exact arithmetic, for the sufficient
statistics of `BetaBernoulli` (`alpha`, `beta`, `n`) and of `NormInvGamma`
(`alpha`, `beta`, `mu_0`, `n`) on a freshly constructed model.  (It fails
for `MVNormInvWishart` — see the counterexample — and for the regression
variants, whose normalized time indices depend on the first batch's
length through `dt`.) -/
theorem claim_C1_amended (b1 b2 : List ℚ) (h1 : b1 ≠ []) (h2 : b2 ≠ []) :
    (((BetaBernoulli.init.update (.vec b1)).2.update (.vec b2)).2.alpha
        = (BetaBernoulli.init.update (.vec (b1 ++ b2))).2.alpha
      ∧ ((BetaBernoulli.init.update (.vec b1)).2.update (.vec b2)).2.beta
        = (BetaBernoulli.init.update (.vec (b1 ++ b2))).2.beta
      ∧ ((BetaBernoulli.init.update (.vec b1)).2.update (.vec b2)).2.com.n
        = (BetaBernoulli.init.update (.vec (b1 ++ b2))).2.com.n)
    ∧ (((NormInvGamma.init.update (.vec b1)).2.update (.vec b2)).2.alpha
        = (NormInvGamma.init.update (.vec (b1 ++ b2))).2.alpha
      ∧ ((NormInvGamma.init.update (.vec b1)).2.update (.vec b2)).2.beta
        = (NormInvGamma.init.update (.vec (b1 ++ b2))).2.beta
      ∧ ((NormInvGamma.init.update (.vec b1)).2.update (.vec b2)).2.mu_0
        = (NormInvGamma.init.update (.vec (b1 ++ b2))).2.mu_0
      ∧ ((NormInvGamma.init.update (.vec b1)).2.update (.vec b2)).2.com.n
        = (NormInvGamma.init.update (.vec (b1 ++ b2))).2.com.n) := by
  have hn1 : (b1.length : ℚ) ≠ 0 :=
    Nat.cast_ne_zero.mpr (fun h => h1 (List.length_eq_zero.mp h))
  have hn2 : (b2.length : ℚ) ≠ 0 :=
    Nat.cast_ne_zero.mpr (fun h => h2 (List.length_eq_zero.mp h))
  have hn1pos : (0 : ℚ) < (b1.length : ℚ) := by
    have := Nat.pos_of_ne_zero (fun h => h1 (List.length_eq_zero.mp h))
    exact_mod_cast this
  have hn2pos : (0 : ℚ) < (b2.length : ℚ) := by
    have := Nat.pos_of_ne_zero (fun h => h2 (List.length_eq_zero.mp h))
    exact_mod_cast this
  have hn12 : (b1.length : ℚ) + (b2.length : ℚ) ≠ 0 := by positivity
  have hq : ((b1 ++ b2).map (fun v => v ^ 2)).sum
      = (b1.map (fun v => v ^ 2)).sum + (b2.map (fun v => v ^ 2)).sum := by
    rw [List.map_append, List.sum_append]
  have hs : (b1 ++ b2).sum = b1.sum + b2.sum := List.sum_append
  have hlen : ((b1 ++ b2).length : ℚ) = (b1.length : ℚ) + (b2.length : ℚ) := by
    rw [List.length_append]
    push_cast
    ring
  constructor
  · -- BetaBernoulli
    have hm1 : (BetaBernoulli.init.update (.vec b1)).2
        = ⟨⟨b1.length, some 1, some 0, some (b1.length : ℚ)⟩,
           1 + b1.sum, 1 + (b1.map (fun v => 1 - v)).sum⟩ := by
      rw [BetaBernoulli.update_vec_bb BetaBernoulli.init b1 rfl]
      simp [BetaBernoulli.init, Common.initScalar, Common.anchored, NpInput.dtVal]
    have e2 := BetaBernoulli.update_vec_bb
      (⟨⟨b1.length, some 1, some 0, some (b1.length : ℚ)⟩,
        1 + b1.sum, 1 + (b1.map (fun v => 1 - v)).sum⟩ : BetaBernoulli) b2 rfl
    have eF := BetaBernoulli.update_vec_bb BetaBernoulli.init (b1 ++ b2) rfl
    rw [hm1, e2, eF]
    refine ⟨?_, ?_, ?_⟩
    · simp [BetaBernoulli.init, Common.initScalar, List.sum_append]
      ring
    · simp [BetaBernoulli.init, Common.initScalar, List.map_append, List.sum_append]
      ring
    · simp [Common.anchored, BetaBernoulli.init, Common.initScalar, List.length_append]
  · -- NormInvGamma
    have hsc1 := scatter_eq b1 hn1
    have hsc2 := scatter_eq b2 hn2
    have hscF := scatter_eq (b1 ++ b2) (by rw [hlen]; positivity)
    have hm1 : (NormInvGamma.init.update (.vec b1)).2
        = ⟨⟨b1.length, some 1, some 0, some (b1.length : ℚ)⟩,
           b1.sum / (b1.length : ℚ), (b1.length : ℚ) / 2,
           (b1.map (fun v => (v - b1.sum / (b1.length : ℚ)) ^ 2)).sum / 2⟩ := by
      rw [NormInvGamma.update_vec_nig NormInvGamma.init b1 rfl]
      simp [NormInvGamma.init, Common.initScalar, Common.anchored, NpInput.dtVal]
      field_simp
    have e2 := NormInvGamma.update_vec_nig
      (⟨⟨b1.length, some 1, some 0, some (b1.length : ℚ)⟩,
        b1.sum / (b1.length : ℚ), (b1.length : ℚ) / 2,
        (b1.map (fun v => (v - b1.sum / (b1.length : ℚ)) ^ 2)).sum / 2⟩ : NormInvGamma)
      b2 rfl
    have eF := NormInvGamma.update_vec_nig NormInvGamma.init (b1 ++ b2) rfl
    rw [hm1, e2, eF]
    refine ⟨?_, ?_, ?_, ?_⟩
    · -- alpha
      simp only [NormInvGamma.init, Common.initScalar]
      rw [hlen]
      ring
    · -- beta
      simp only [NormInvGamma.init, Common.initScalar]
      rw [hsc1, hsc2, hscF, hq, hs, hlen]
      push_cast
      field_simp
      ring
    · -- mu_0
      simp only [NormInvGamma.init, Common.initScalar]
      rw [hs, hlen]
      push_cast
      field_simp
    · -- n
      simp [Common.anchored, NormInvGamma.init, Common.initScalar, List.length_append]

/-- Witness for C1 (amended) at the concrete split `[0,2] / [4,6]`. -/
theorem claim_C1_witness :
    ((BetaBernoulli.init.update (.vec [0, 2])).2.update (.vec [4, 6])).2.alpha
        = (BetaBernoulli.init.update (.vec ([0, 2] ++ [4, 6]))).2.alpha
      ∧ ((NormInvGamma.init.update (.vec [0, 2])).2.update (.vec [4, 6])).2.beta
        = (NormInvGamma.init.update (.vec ([0, 2] ++ [4, 6]))).2.beta :=
  ⟨(claim_C1_amended [0, 2] [4, 6] (by simp) (by simp)).1.1,
   (claim_C1_amended [0, 2] [4, 6] (by simp) (by simp)).2.2.1⟩

/-- C2 (code bug): for `MVNormInvWishart` in dimension `d = 2`, absorbing
`[[0,0],[2,4]]` and then updating with `[[10,2],[12,2]]` gives
`delta = sample_mean − mu_0 = [10, 0]`.  The claim (and the class
docstring) add the rank-one outer-product matrix
`(n·n0/(n+n0))·delta deltaᵀ` to `Lambda`, producing `[[108,8],[8,16]]`;
the code instead computes `delta.T @ delta` — the *inner* product, a
scalar `100` — and numpy broadcasting adds it to every entry, producing
`[[108,108],[108,116]]`.  The other parts of the claim (`mu_0` weighted
average, `n = n0+n`, `nu = nu+n`) match the code. -/
theorem claim_C2_lambda_divergence :
    ((MVNormInvWishart.init.update (.mat [[0, 0], [2, 4]])).2.update
          (.mat [[10, 2], [12, 2]])).2.Lambda
        = some [[108, 108], [108, 116]]
      ∧ specLambdaStep [[4, 8], [8, 16]] [1, 2] [[10, 2], [12, 2]] 2 2
        = [[108, 8], [8, 16]]
      ∧ (MVNormInvWishart.init.update (.mat [[0, 0], [2, 4]])).2.Lambda
        = some [[4, 8], [8, 16]]
      ∧ (MVNormInvWishart.init.update (.mat [[0, 0], [2, 4]])).2.mu_0 = some [1, 2]
      ∧ ((MVNormInvWishart.init.update (.mat [[0, 0], [2, 4]])).2.update
          (.mat [[10, 2], [12, 2]])).2.Lambda
        ≠ some (specLambdaStep [[4, 8], [8, 16]] [1, 2] [[10, 2], [12, 2]] 2 2)
      ∧ ((MVNormInvWishart.init.update (.mat [[0, 0], [2, 4]])).2.update
          (.mat [[10, 2], [12, 2]])).2.mu_0 = some [6, 2]
      ∧ ((MVNormInvWishart.init.update (.mat [[0, 0], [2, 4]])).2.update
          (.mat [[10, 2], [12, 2]])).2.com.n = 4
      ∧ ((MVNormInvWishart.init.update (.mat [[0, 0], [2, 4]])).2.update
          (.mat [[10, 2], [12, 2]])).2.nu = 4 := by
  refine ⟨?_, ?_, ?_, ?_, ?_, ?_, ?_, ?_⟩ <;>
    norm_num [MVNormInvWishart.update, MVNormInvWishart.init, processTS, Common.init,
      Common.anchored, NpInput.asMatrix, NpInput.ncols, NpInput.dtVal, colMean, npCov,
      npCovEntry, matScale, matAdd, matAddConst, matEntry, specLambdaStep,
      List.range_succ]

/-- `np.asarray(v.tolist())` equals `np.asarray(v)` when `v` is not an
array directly wrapping an array. -/
theorem asarray_tolist (v : PyVal) (h : notNestedArr v = true) :
    npAsarray (pyTolist v) = npAsarray v := by
  cases v with
  | pyarr w =>
      cases w <;> simp_all [pyTolist, npAsarray, notNestedArr]
  | pynone => rfl
  | pyint z => rfl
  | pyrat q => rfl
  | pylist xs => rfl

/-- Counterexample to C3: even for a freshly constructed `BetaBernoulli`,
`from_dict(to_dict(m))` is not field-identical to `m`: `from_dict` passes
every value through `np.asarray`, so the `int` field `n = 0` (and every
other field, including `t0 = None` and `dt = None`) comes back as a
numpy array. -/
theorem claim_C3_counterexample :
    ConjPrior.from_dict (BetaBernoulli.toPyDict BetaBernoulli.init)
        (ConjPrior.to_dict (BetaBernoulli.toPyDict BetaBernoulli.init))
      ≠ BetaBernoulli.toPyDict BetaBernoulli.init := by
  simp [ConjPrior.from_dict, ConjPrior.to_dict, BetaBernoulli.toPyDict,
    BetaBernoulli.init, Common.initScalar, pyTolist, npAsarray, pyOptNat, pyOptRat,
    List.lookup]

/-- C3 (amended): `from_dict` does not assign fields verbatim — it assigns
`np.asarray(value)`.  Consequently `from_dict(to_dict(m))` produces the
model whose every field is `m`'s field passed through `np.asarray`
(numerically equal content, but with scalars and `None`s coerced to
arrays), rather than a field-identical copy. -/
theorem claim_C3_amended (fresh d : PyDict)
    (hkeys : d.map Prod.fst = fresh.map Prod.fst)
    (hnodup : (fresh.map Prod.fst).Nodup)
    (hnest : ∀ kv ∈ d, notNestedArr kv.2 = true) :
    ConjPrior.from_dict fresh (ConjPrior.to_dict d)
      = d.map (fun kv => (kv.1, npAsarray kv.2)) := by
  induction d generalizing fresh with
  | nil =>
      have : fresh = [] := by
        cases fresh with
        | nil => rfl
        | cons a l => simp at hkeys
      subst this
      rfl
  | cons kv d' ih =>
      obtain ⟨k, v⟩ := kv
      cases fresh with
      | nil => simp at hkeys
      | cons kv0 fresh' =>
          obtain ⟨k0, v0⟩ := kv0
          have hk : k = k0 := by simpa using congrArg (fun l => l.headD "") hkeys
          subst hk
          have hkeys' : d'.map Prod.fst = fresh'.map Prod.fst := by
            simpa using hkeys
          have hnodup' : (fresh'.map Prod.fst).Nodup := (List.nodup_cons.mp hnodup).2
          have hknotin : k ∉ fresh'.map Prod.fst := (List.nodup_cons.mp hnodup).1
          have hstep : ∀ kv1 ∈ fresh',
              List.lookup kv1.1 (ConjPrior.to_dict ((k, v) :: d'))
                = List.lookup kv1.1 (ConjPrior.to_dict d') := by
            intro kv1 hmem
            have hne : kv1.1 ≠ k := by
              intro hEq
              exact hknotin (hEq ▸ List.mem_map_of_mem Prod.fst hmem)
            have hbeq : (kv1.1 == k) = false := beq_eq_false_iff_ne.mpr hne
            simp [ConjPrior.to_dict, List.lookup, hbeq]
          have htail : ConjPrior.from_dict fresh' (ConjPrior.to_dict ((k, v) :: d'))
              = ConjPrior.from_dict fresh' (ConjPrior.to_dict d') := by
            unfold ConjPrior.from_dict
            refine List.map_congr_left ?_
            intro kv1 hmem
            rw [hstep kv1 hmem]
          have hv := hnest (k, v) (by simp)
          calc ConjPrior.from_dict ((k, v0) :: fresh') (ConjPrior.to_dict ((k, v) :: d'))
              = (k, npAsarray (pyTolist v))
                  :: ConjPrior.from_dict fresh' (ConjPrior.to_dict ((k, v) :: d')) := by
                simp [ConjPrior.from_dict, ConjPrior.to_dict, List.lookup]
            _ = (k, npAsarray v) :: ConjPrior.from_dict fresh' (ConjPrior.to_dict d') := by
                rw [htail, asarray_tolist v hv]
            _ = (k, npAsarray v) :: d'.map (fun kv => (kv.1, npAsarray kv.2)) := by
                rw [ih fresh' hkeys' hnodup' (fun kv1 h1 => hnest kv1 (by simp [h1]))]
            _ = ((k, v) :: d').map (fun kv => (kv.1, npAsarray kv.2)) := by simp

/-- Witness for C3 (amended) at the fresh `BetaBernoulli` dictionary. -/
theorem claim_C3_witness :
    ConjPrior.from_dict (BetaBernoulli.toPyDict BetaBernoulli.init)
        (ConjPrior.to_dict (BetaBernoulli.toPyDict BetaBernoulli.init))
      = (BetaBernoulli.toPyDict BetaBernoulli.init).map
          (fun kv => (kv.1, npAsarray kv.2)) :=
  claim_C3_amended (BetaBernoulli.toPyDict BetaBernoulli.init)
    (BetaBernoulli.toPyDict BetaBernoulli.init) rfl
    (by simp [BetaBernoulli.toPyDict])
    (by
      intro kv h
      simp [BetaBernoulli.toPyDict, BetaBernoulli.init, Common.initScalar,
        pyOptNat, pyOptRat] at h
      rcases h with rfl | rfl | rfl | rfl | rfl | rfl <;> rfl)

/-- C7: for `BayesianLinReg` and `BayesianMVLinReg`, calling `posterior`
with `x = None` or `return_rv = True` raises the unsupported-operation
`ValueError` (whose message names the missing scipy random-variable
capability) before any computation: the returned state is exactly the
input state, untouched, and no random-variable result is ever produced by
these two variants. -/
theorem claim_C7_regression_posterior_guard
    (m1 : BayesianLinReg) (m2 : BayesianMVLinReg) (x : Option NpInput)
    (return_rv log : Bool) (h : x = none ∨ return_rv = true) :
    m1.posterior x return_rv log = (.error (.valueError unsupportedMsg), m1)
    ∧ m2.posterior x return_rv log = (.error (.valueError unsupportedMsg), m2) := by
  constructor
  · unfold BayesianLinReg.posterior
    rcases h with h | h
    · subst h; rfl
    · subst h; cases x <;> rfl
  · unfold BayesianMVLinReg.posterior
    rcases h with h | h
    · subst h; rfl
    · subst h; cases x <;> rfl

/-- Witness for C7 on fresh models with `x = None`. -/
theorem claim_C7_witness :
    BayesianLinReg.init.posterior none false true
        = (.error (.valueError unsupportedMsg), BayesianLinReg.init)
    ∧ BayesianMVLinReg.init.posterior none false true
        = (.error (.valueError unsupportedMsg), BayesianMVLinReg.init) :=
  claim_C7_regression_posterior_guard BayesianLinReg.init BayesianMVLinReg.init
    none false true (Or.inl rfl)

/-- On the failing (dimension-mismatch) path, `process_time_series` leaves
the common fields exactly as the anchoring block set them. -/
theorem processTS_error_snd (c : Common) (x : NpInput) (e : PyError) (c' : Common)
    (h : processTS c x = (.error e, c')) : c' = c.anchored x := by
  simp only [processTS] at h
  cases hd : (c.anchored x).dim with
  | none =>
      rw [hd] at h
      simp at h
  | some d =>
      rw [hd] at h
      by_cases hc : x.ncols = d
      · simp [hc] at h
      · simp [hc] at h
        exact h.2.symm

/-- Scalar-variant version of `processTS_error_snd`. -/
theorem processTSScalar_error_snd (c : Common) (x : NpInput) (e : PyError)
    (c' : Common) (h : processTSScalar c x = (.error e, c')) :
    c' = c.anchored x := by
  unfold processTSScalar at h
  cases hp : processTS c x with
  | mk r c1 =>
      rw [hp] at h
      cases r with
      | error e1 =>
          simp at h
          exact h.2 ▸ processTS_error_snd c x e1 c1 hp
      | ok v =>
          obtain ⟨t, X⟩ := v
          simp at h

/-- Counterexample to C4: a fresh `BetaBernoulli` (a scalar variant, whose
`dim` is already fixed to `1` at construction while its time anchor is
still unset) updated with the 2-column batch `[[1, 2]]` raises the
dimension mismatch — but the failing call *has* mutated state: `t0` and
`dt` went from `None` to `0` and `1`, because `process_time_series`
anchors the time origin before performing the dimension check. -/
theorem claim_C4_counterexample :
    (BetaBernoulli.init.update (.mat [[1, 2]])).1 = .error .dimensionMismatch
    ∧ BetaBernoulli.init.com.t0 = none
    ∧ BetaBernoulli.init.com.dt = none
    ∧ (BetaBernoulli.init.update (.mat [[1, 2]])).2.com.t0 = some 0
    ∧ (BetaBernoulli.init.update (.mat [[1, 2]])).2.com.dt = some 1 := by
  refine ⟨?_, rfl, rfl, ?_, ?_⟩ <;>
    norm_num [BetaBernoulli.update, processTSScalar, processTS, BetaBernoulli.init,
      Common.initScalar, Common.anchored, NpInput.asMatrix, NpInput.ncols,
      NpInput.dtVal]

/-- C4 (amended): when `update` raises the dimension mismatch, `n`, `dim`
and the sufficient statistics are untouched and the only possible mutation
is anchoring a previously-unset `t0`/`dt` (the anchoring block runs before
the dimension check); in particular, a failing call on a model whose time
anchor is already set mutates nothing at all.  Stated for the three
variants whose `update` is modelled (`BetaBernoulli`, `NormInvGamma`,
`MVNormInvWishart`). -/
theorem claim_C4_amended :
    (∀ (m : BetaBernoulli) (x : NpInput) (e : PyError),
      m.update x = (.error e, (m.update x).2) →
        (m.update x).2.alpha = m.alpha ∧ (m.update x).2.beta = m.beta
        ∧ (m.update x).2.com.n = m.com.n ∧ (m.update x).2.com.dim = m.com.dim
        ∧ (m.update x).2.com = m.com.anchored x
        ∧ (m.com.t0 ≠ none → m.com.dt ≠ none → (m.update x).2 = m))
    ∧ (∀ (m : NormInvGamma) (x : NpInput) (e : PyError),
      m.update x = (.error e, (m.update x).2) →
        (m.update x).2.alpha = m.alpha ∧ (m.update x).2.beta = m.beta
        ∧ (m.update x).2.mu_0 = m.mu_0
        ∧ (m.update x).2.com.n = m.com.n ∧ (m.update x).2.com.dim = m.com.dim
        ∧ (m.update x).2.com = m.com.anchored x
        ∧ (m.com.t0 ≠ none → m.com.dt ≠ none → (m.update x).2 = m))
    ∧ (∀ (m : MVNormInvWishart) (x : NpInput) (e : PyError),
      m.update x = (.error e, (m.update x).2) →
        (m.update x).2.mu_0 = m.mu_0 ∧ (m.update x).2.Lambda = m.Lambda
        ∧ (m.update x).2.nu = m.nu
        ∧ (m.update x).2.com.n = m.com.n ∧ (m.update x).2.com.dim = m.com.dim
        ∧ (m.update x).2.com = m.com.anchored x
        ∧ (m.com.t0 ≠ none → m.com.dt ≠ none → (m.update x).2 = m)) := by
  refine ⟨?_, ?_, ?_⟩
  · intro m x e h
    unfold BetaBernoulli.update at h ⊢
    cases hp : processTSScalar m.com x with
    | mk r c1 =>
        cases r with
        | ok v =>
            obtain ⟨t, xs⟩ := v
            rw [hp] at h
            simp at h
        | error e1 =>
            have hc1 : c1 = m.com.anchored x := processTSScalar_error_snd m.com x e1 c1 hp
            have hnd := anchored_n_dim m.com x
            refine ⟨rfl, rfl, ?_, ?_, ?_, ?_⟩
            · simp [hc1, hnd.1]
            · simp [hc1, hnd.2]
            · simp [hc1]
            · intro h0 h1
              simp [hc1, anchored_of_anchored m.com x h0 h1]
  · intro m x e h
    unfold NormInvGamma.update at h ⊢
    cases hp : processTSScalar m.com x with
    | mk r c1 =>
        cases r with
        | ok v =>
            obtain ⟨t, xs⟩ := v
            rw [hp] at h
            simp at h
        | error e1 =>
            have hc1 : c1 = m.com.anchored x := processTSScalar_error_snd m.com x e1 c1 hp
            have hnd := anchored_n_dim m.com x
            refine ⟨rfl, rfl, rfl, ?_, ?_, ?_, ?_⟩
            · simp [hc1, hnd.1]
            · simp [hc1, hnd.2]
            · simp [hc1]
            · intro h0 h1
              simp [hc1, anchored_of_anchored m.com x h0 h1]
  · intro m x e h
    unfold MVNormInvWishart.update at h ⊢
    cases hp : processTS m.com x with
    | mk r c1 =>
        cases r with
        | ok v =>
            obtain ⟨t, X⟩ := v
            rw [hp] at h
            by_cases h0 : c1.n = 0 <;> simp [h0] at h
        | error e1 =>
            have hc1 : c1 = m.com.anchored x := processTS_error_snd m.com x e1 c1 hp
            have hnd := anchored_n_dim m.com x
            refine ⟨rfl, rfl, rfl, ?_, ?_, ?_, ?_⟩
            · simp [hc1, hnd.1]
            · simp [hc1, hnd.2]
            · simp [hc1]
            · intro h0 h1
              simp [hc1, anchored_of_anchored m.com x h0 h1]

/-- Witness for C4 (amended): the anchored-model no-mutation consequence,
applied to a `BetaBernoulli` with its anchor already set and a mismatching
3-column batch. -/
theorem claim_C4_witness :
    ((⟨⟨2, some 1, some 0, some 2⟩, 3, 1⟩ : BetaBernoulli).update
        (.mat [[1, 2, 3]])).2 = (⟨⟨2, some 1, some 0, some 2⟩, 3, 1⟩ : BetaBernoulli) :=
  ((claim_C4_amended.1 (⟨⟨2, some 1, some 0, some 2⟩, 3, 1⟩ : BetaBernoulli)
      (.mat [[1, 2, 3]]) .dimensionMismatch
      (by
        have ha : ((⟨2, some 1, some 0, some 2⟩ : Common).anchored (.mat [[1, 2, 3]]))
            = (⟨2, some 1, some 0, some 2⟩ : Common) :=
          anchored_of_anchored _ _ (by simp) (by simp)
        simp [BetaBernoulli.update, processTSScalar, processTS, ha,
          NpInput.asMatrix, NpInput.ncols])).2.2.2.2.2
    (by simp) (by simp))

/-- When `dim` is unset, `process_time_series` adopts the incoming column
count. -/
theorem processTS_dim_adopt (c : Common) (x : NpInput) (h : c.dim = none) :
    (processTS c x).2.dim = some x.ncols := by
  simp only [processTS]
  have hd : (c.anchored x).dim = none := by rw [(anchored_n_dim c x).2, h]
  rw [hd]

/-- When `dim` is already fixed, `process_time_series` never changes it,
and a column-count mismatch is exactly the failing case. -/
theorem processTS_dim_fixed (c : Common) (x : NpInput) (d : ℕ)
    (h : c.dim = some d) :
    (processTS c x).2.dim = some d
    ∧ (x.ncols ≠ d → (processTS c x).1 = .error .dimensionMismatch)
    ∧ (x.ncols = d → ∃ t X, (processTS c x).1 = .ok (t, X)) := by
  simp only [processTS]
  have hd : (c.anchored x).dim = some d := by rw [(anchored_n_dim c x).2, h]
  rw [hd]
  by_cases hc : x.ncols = d
  · refine ⟨by simp [hc, hd], fun hne => absurd hc hne, fun _ => ?_⟩
    dsimp only
    rw [if_pos hc]
    exact ⟨_, _, rfl⟩
  · exact ⟨by simp [hc, hd], fun _ => by simp [hc], fun hEq => absurd hEq hc⟩

/-- Scalar-variant corollary: a fixed-`dim` mismatch makes
`processTSScalar` fail with the dimension error. -/
theorem processTSScalar_mismatch (c : Common) (x : NpInput) (d : ℕ)
    (h : c.dim = some d) (hne : x.ncols ≠ d) :
    (processTSScalar c x).1 = .error .dimensionMismatch := by
  have hm := (processTS_dim_fixed c x d h).2.1 hne
  unfold processTSScalar
  cases hp : processTS c x with
  | mk r c1 =>
      rw [hp] at hm
      cases r with
      | error e1 => simpa using hm
      | ok v =>
          obtain ⟨t, X⟩ := v
          simp at hm

/-- Counterexample to C8: `dim` is *not* `None` on every freshly
constructed model — the scalar variants (`BetaBernoulli`, `NormInvGamma`)
fix `dim = 1` at construction, before any observation is absorbed. -/
theorem claim_C8_counterexample :
    BetaBernoulli.init.com.n = 0 ∧ BetaBernoulli.init.com.dim ≠ none := by
  exact ⟨rfl, by simp [BetaBernoulli.init, Common.initScalar]⟩

/-- C8 (amended): `dim` is `None` on a freshly constructed
`MVNormInvWishart`, `BayesianLinReg` or `BayesianMVLinReg` until the first
batch is absorbed (which adopts the batch's column count), while the
scalar variants fix `dim = 1` already at construction; in every variant,
once `dim` is set it never changes, and a subsequent observation whose
column count differs is a fatal dimension-mismatch error — shown for the
`update` of the three modelled-update variants. -/
theorem claim_C8_amended :
    (MVNormInvWishart.init.com.dim = none
      ∧ BayesianLinReg.init.com.dim = none
      ∧ BayesianMVLinReg.init.com.dim = none
      ∧ BetaBernoulli.init.com.dim = some 1
      ∧ NormInvGamma.init.com.dim = some 1)
    ∧ (∀ (c : Common) (x : NpInput), c.dim = none →
        (processTS c x).2.dim = some x.ncols)
    ∧ (∀ (c : Common) (x : NpInput) (d : ℕ), c.dim = some d →
        (processTS c x).2.dim = some d)
    ∧ (∀ (m : BetaBernoulli) (x : NpInput) (d : ℕ),
        m.com.dim = some d → x.ncols ≠ d →
          (m.update x).1 = .error .dimensionMismatch)
    ∧ (∀ (m : NormInvGamma) (x : NpInput) (d : ℕ),
        m.com.dim = some d → x.ncols ≠ d →
          (m.update x).1 = .error .dimensionMismatch)
    ∧ (∀ (m : MVNormInvWishart) (x : NpInput) (d : ℕ),
        m.com.dim = some d → x.ncols ≠ d →
          (m.update x).1 = .error .dimensionMismatch) := by
  refine ⟨⟨rfl, rfl, rfl, rfl, rfl⟩, processTS_dim_adopt,
    (fun c x d h => (processTS_dim_fixed c x d h).1), ?_, ?_, ?_⟩
  · intro m x d h hne
    have hm := processTSScalar_mismatch m.com x d h hne
    unfold BetaBernoulli.update
    cases hp : processTSScalar m.com x with
    | mk r c1 =>
        rw [hp] at hm
        cases r with
        | error e1 => simpa using hm
        | ok v =>
            obtain ⟨t, xs⟩ := v
            simp at hm
  · intro m x d h hne
    have hm := processTSScalar_mismatch m.com x d h hne
    unfold NormInvGamma.update
    cases hp : processTSScalar m.com x with
    | mk r c1 =>
        rw [hp] at hm
        cases r with
        | error e1 => simpa using hm
        | ok v =>
            obtain ⟨t, xs⟩ := v
            simp at hm
  · intro m x d h hne
    have hm := (processTS_dim_fixed m.com x d h).2.1 hne
    unfold MVNormInvWishart.update
    cases hp : processTS m.com x with
    | mk r c1 =>
        rw [hp] at hm
        cases r with
        | error e1 => simpa using hm
        | ok v =>
            obtain ⟨t, X⟩ := v
            simp at hm

/-- Witness for C8 (amended): `dim` adoption on a fresh common state and a
fatal mismatch on a fixed-`dim` `BetaBernoulli`. -/
theorem claim_C8_witness :
    (processTS Common.init (.mat [[1, 2]])).2.dim = some 2
    ∧ (BetaBernoulli.init.update (.mat [[1, 2]])).1 = .error .dimensionMismatch :=
  ⟨by
    have h := claim_C8_amended.2.1 Common.init (.mat [[1, 2]]) rfl
    simpa [NpInput.ncols] using h,
   claim_C8_amended.2.2.2.1 BetaBernoulli.init (.mat [[1, 2]]) 1 rfl (by
     simp [NpInput.ncols])⟩

/-- On a state with no time anchor, `process_time_series` sets
`t0 = 0` and `dt` from the input, whatever else happens. -/
theorem processTS_anchors (c : Common) (x : NpInput) (h : c.t0 = none) :
    (processTS c x).2.t0 = some 0 ∧ (processTS c x).2.dt = some x.dtVal := by
  have hca : c.anchored x = { c with t0 := some 0, dt := some x.dtVal } := by
    unfold Common.anchored
    rw [if_pos (Or.inl h)]
  simp only [processTS]
  cases hd : (c.anchored x).dim with
  | none => simp [hca]
  | some d => by_cases hc : x.ncols = d <;> simp [hc, hca]

/-- On an anchored state, `process_time_series` never re-anchors. -/
theorem processTS_keeps_anchor (c : Common) (x : NpInput) (a b : ℚ)
    (h0 : c.t0 = some a) (h1 : c.dt = some b) :
    (processTS c x).2.t0 = some a ∧ (processTS c x).2.dt = some b := by
  have hca : c.anchored x = c :=
    anchored_of_anchored c x (by simp [h0]) (by simp [h1])
  simp only [processTS]
  cases hd : (c.anchored x).dim with
  | none => simp [hca, h0, h1]
  | some d => by_cases hc : x.ncols = d <;> simp [hc, hca, h0, h1]

/-- The state effect of the scalar preprocessing equals that of the base
preprocessing. -/
theorem processTSScalar_snd (c : Common) (x : NpInput) :
    (processTSScalar c x).2 = (processTS c x).2 := by
  unfold processTSScalar
  cases hp : processTS c x with
  | mk r c1 =>
      cases r with
      | error e => rfl
      | ok v =>
          obtain ⟨t, X⟩ := v
          rfl

/-- State effect of `BetaBernoulli.posterior` on a numeric query: exactly
the preprocessing's effect on the common fields. -/
theorem BetaBernoulli.posterior_com_bb (m : BetaBernoulli) (x : NpInput)
    (rv log : Bool) :
    (m.posterior (some x) rv log).2.com = (processTS m.com x).2 := by
  unfold BetaBernoulli.posterior
  dsimp only
  have hs := processTSScalar_snd m.com x
  cases hp : processTSScalar m.com x with
  | mk r c1 =>
      rw [hp] at hs
      cases r with
      | error e => simpa using hs
      | ok v =>
          obtain ⟨t, xs⟩ := v
          simpa using hs

/-- State effect of `NormInvGamma.posterior` on a numeric query. -/
theorem NormInvGamma.posterior_com_nig (m : NormInvGamma) (x : NpInput)
    (rv log : Bool) :
    (m.posterior (some x) rv log).2.com = (processTS m.com x).2 := by
  unfold NormInvGamma.posterior
  dsimp only
  have hs := processTSScalar_snd m.com x
  cases hp : processTSScalar m.com x with
  | mk r c1 =>
      rw [hp] at hs
      cases r with
      | error e => simpa using hs
      | ok v =>
          obtain ⟨t, xs⟩ := v
          simpa using hs

/-- State effect of `MVNormInvWishart.posterior` on a numeric query. -/
theorem MVNormInvWishart.posterior_com_mvniw (m : MVNormInvWishart) (x : NpInput)
    (rv log : Bool) :
    (m.posterior (some x) rv log).2.com = (processTS m.com x).2 := by
  unfold MVNormInvWishart.posterior
  dsimp only
  cases hp : processTS m.com x with
  | mk r c1 =>
      cases r with
      | error e => rfl
      | ok v =>
          obtain ⟨t, X⟩ := v
          rfl

/-- State effect of `BayesianLinReg.posterior` on a numeric query with
`return_rv = False`. -/
theorem BayesianLinReg.posterior_com_blr (m : BayesianLinReg) (x : NpInput)
    (log : Bool) :
    (m.posterior (some x) false log).2.com = (processTS m.com x).2 := by
  unfold BayesianLinReg.posterior
  dsimp only
  cases hp : processTS m.com x with
  | mk r c1 =>
      cases r with
      | error e => rfl
      | ok v =>
          obtain ⟨t, X⟩ := v
          rfl

/-- State effect of `BayesianMVLinReg.posterior` on a numeric query with
`return_rv = False`. -/
theorem BayesianMVLinReg.posterior_com_bmvlr (m : BayesianMVLinReg) (x : NpInput)
    (log : Bool) :
    (m.posterior (some x) false log).2.com = (processTS m.com x).2 := by
  unfold BayesianMVLinReg.posterior
  dsimp only
  cases hp : processTS m.com x with
  | mk r c1 =>
      cases r with
      | error e => rfl
      | ok v =>
          obtain ⟨t, X⟩ := v
          rfl

/-- C9: for every model variant, `posterior` with a non-`None` numeric
query on a model whose time anchor is unset sets `t0 = 0` and `dt` (from
the query) as a side effect — density evaluation is not read-only on an
unanchored model — and for `MVNormInvWishart` (whose `dim` is unfixed
before the first batch) it also adopts the query's column count as `dim`;
once set, the anchor is never re-anchored by later preprocessing. -/
theorem claim_C9_posterior_side_effect :
    (∀ (m : BetaBernoulli) (x : NpInput) (rv log : Bool), m.com.t0 = none →
        (m.posterior (some x) rv log).2.com.t0 = some 0
        ∧ (m.posterior (some x) rv log).2.com.dt = some x.dtVal
        ∧ (m.posterior (some x) rv log).2 ≠ m)
    ∧ (∀ (m : NormInvGamma) (x : NpInput) (rv log : Bool), m.com.t0 = none →
        (m.posterior (some x) rv log).2.com.t0 = some 0
        ∧ (m.posterior (some x) rv log).2.com.dt = some x.dtVal
        ∧ (m.posterior (some x) rv log).2 ≠ m)
    ∧ (∀ (m : MVNormInvWishart) (x : NpInput) (rv log : Bool), m.com.t0 = none →
        (m.posterior (some x) rv log).2.com.t0 = some 0
        ∧ (m.posterior (some x) rv log).2.com.dt = some x.dtVal
        ∧ (m.com.dim = none → (m.posterior (some x) rv log).2.com.dim = some x.ncols)
        ∧ (m.posterior (some x) rv log).2 ≠ m)
    ∧ (∀ (m : BayesianLinReg) (x : NpInput) (log : Bool), m.com.t0 = none →
        (m.posterior (some x) false log).2.com.t0 = some 0
        ∧ (m.posterior (some x) false log).2.com.dt = some x.dtVal
        ∧ (m.posterior (some x) false log).2 ≠ m)
    ∧ (∀ (m : BayesianMVLinReg) (x : NpInput) (log : Bool), m.com.t0 = none →
        (m.posterior (some x) false log).2.com.t0 = some 0
        ∧ (m.posterior (some x) false log).2.com.dt = some x.dtVal
        ∧ (m.posterior (some x) false log).2 ≠ m)
    ∧ (∀ (c : Common) (x : NpInput) (a b : ℚ), c.t0 = some a → c.dt = some b →
        (processTS c x).2.t0 = some a ∧ (processTS c x).2.dt = some b) := by
  refine ⟨?_, ?_, ?_, ?_, ?_, processTS_keeps_anchor⟩
  · intro m x rv log h
    have hA := processTS_anchors m.com x h
    have hS := BetaBernoulli.posterior_com_bb m x rv log
    refine ⟨by rw [hS]; exact hA.1, by rw [hS]; exact hA.2, ?_⟩
    intro hEq
    have ht : (m.posterior (some x) rv log).2.com.t0 = none := by rw [hEq]; exact h
    rw [hS, hA.1] at ht
    simp at ht
  · intro m x rv log h
    have hA := processTS_anchors m.com x h
    have hS := NormInvGamma.posterior_com_nig m x rv log
    refine ⟨by rw [hS]; exact hA.1, by rw [hS]; exact hA.2, ?_⟩
    intro hEq
    have ht : (m.posterior (some x) rv log).2.com.t0 = none := by rw [hEq]; exact h
    rw [hS, hA.1] at ht
    simp at ht
  · intro m x rv log h
    have hA := processTS_anchors m.com x h
    have hS := MVNormInvWishart.posterior_com_mvniw m x rv log
    refine ⟨by rw [hS]; exact hA.1, by rw [hS]; exact hA.2,
      fun hd => by rw [hS]; exact processTS_dim_adopt m.com x hd, ?_⟩
    intro hEq
    have ht : (m.posterior (some x) rv log).2.com.t0 = none := by rw [hEq]; exact h
    rw [hS, hA.1] at ht
    simp at ht
  · intro m x log h
    have hA := processTS_anchors m.com x h
    have hS := BayesianLinReg.posterior_com_blr m x log
    refine ⟨by rw [hS]; exact hA.1, by rw [hS]; exact hA.2, ?_⟩
    intro hEq
    have ht : (m.posterior (some x) false log).2.com.t0 = none := by rw [hEq]; exact h
    rw [hS, hA.1] at ht
    simp at ht
  · intro m x log h
    have hA := processTS_anchors m.com x h
    have hS := BayesianMVLinReg.posterior_com_bmvlr m x log
    refine ⟨by rw [hS]; exact hA.1, by rw [hS]; exact hA.2, ?_⟩
    intro hEq
    have ht : (m.posterior (some x) false log).2.com.t0 = none := by rw [hEq]; exact h
    rw [hS, hA.1] at ht
    simp at ht

/-- Witness for C9: the side effect observed on fresh models of three
variants. -/
theorem claim_C9_witness :
    (BetaBernoulli.init.posterior (some (.vec [1, 0])) false true).2.com.t0 = some 0
    ∧ (MVNormInvWishart.init.posterior (some (.mat [[1, 2]])) false true).2.com.dim
        = some 2
    ∧ (BayesianLinReg.init.posterior (some (.vec [1, 2])) false true).2.com.dt
        = some 2 := by
  refine ⟨(claim_C9_posterior_side_effect.1 BetaBernoulli.init (.vec [1, 0])
      false true rfl).1, ?_, ?_⟩
  · have h := (claim_C9_posterior_side_effect.2.2.1 MVNormInvWishart.init
      (.mat [[1, 2]]) false true rfl).2.2.1 rfl
    simpa [NpInput.ncols] using h
  · have h := (claim_C9_posterior_side_effect.2.2.2.1 BayesianLinReg.init
      (.vec [1, 2]) true rfl).2.1
    simpa [NpInput.dtVal] using h
